import Mathlib

/-!
Verification of the column-inference / resampling pipeline of `src/app.py`
(a pandas + streamlit script).  The pipeline is embedded shallowly:

* timestamps are naive epoch seconds (`Nat`); pandas naive datetimes have no
  leap seconds, so a day is exactly 86400 s and the calendar-aligned bucket
  of width `w` containing `t` starts at `w * (t / w)` for every granularity
  offered by the UI (`D`, `H`, `15T`, `5T`, all of which divide a day, so
  pandas' `origin='start_day'` anchoring coincides with epoch flooring);
* prices are `Int` (the resampler never computes on prices, it only selects
  them, so the numeric carrier type is irrelevant);
* a dataframe cell is a `Cell`: missing (`na`, i.e. NaN/NaT), numeric,
  string, or datetime; `pd.to_datetime(..., errors="coerce")` and
  `pd.to_numeric(..., errors="coerce")` act cell-wise, with the string
  grammars of the two parsers abstracted into a `Parsers` record
  (negative epoch offsets are outside the modelled timestamp range);
* a loaded dataframe is a `RawTable`: a header of column names and a list
  of rows, each row a list of cells in column order.
-/


/-- The four resampling rules offered by the sidebar selectbox
(`["D", "H", "15T", "5T"]` in `app.py`). -/
inductive Resolution
  | D
  | H
  | T15
  | T5
deriving DecidableEq

/-- Bucket width in seconds of a resampling rule. -/
def Resolution.width : Resolution → Nat
  | .D => 86400
  | .H => 3600
  | .T15 => 900
  | .T5 => 300

/-- Start of the width-`w` calendar-aligned bucket containing time `t`
(the pandas bin label for `t` under `.resample(rule)`). -/
def bucket (w : Nat) (t : Nat) : Nat := w * (t / w)

/-- The bucket starts that occur in a series, each once, ascending — the
index of the pandas resampled frame after `.dropna()`. -/
def bucketStarts (w : Nat) (s : List (Nat × Int)) : List Nat :=
  List.insertionSort (· ≤ ·) ((s.map (fun r => bucket w r.1)).dedup)

/-- Model of `.last()` of the group of rows falling in the bucket starting at `b`:
the last (in list position) element of the series whose bucket is `b`. -/
def lastInBucket (w : Nat) (s : List (Nat × Int)) (b : Nat) : Option Int :=
  ((s.filter (fun r => bucket w r.1 == b)).getLast?).map Prod.snd

/-- Model of `df.set_index(time)[price].resample(rule).last().dropna().reset_index()`:
one row per non-empty bucket, keyed by bucket start, ascending, carrying the
last price observed inside the bucket. -/
def resample (w : Nat) (s : List (Nat × Int)) : List (Nat × Int) :=
  (bucketStarts w s).filterMap (fun b => (lastInBucket w s b).map (fun p => (b, p)))

/-- Spec-side description of a bucket's value: the price of the positionally
last element of the series whose timestamp lies in the half-open interval
from `b` (inclusive) to `b + w` (exclusive). -/
def lastInInterval (w : Nat) (s : List (Nat × Int)) (b : Nat) : Option Int :=
  ((s.filter (fun r => b ≤ r.1 && r.1 < b + w)).getLast?).map Prod.snd

/-- A dataframe cell: missing value (NaN/NaT), numeric value, text value, or
datetime value. -/
inductive Cell
  | na
  | num (x : Int)
  | str (s : String)
  | time (t : Nat)
deriving DecidableEq

/-- The string grammars of `pd.to_datetime` and `pd.to_numeric`, abstracted:
which strings parse as datetimes / numbers and to what. -/
structure Parsers where
  parseDate : String → Option Nat
  parseNum : String → Option Int

/-- Model of `pd.to_datetime(value, errors="coerce")`, cell-wise: unparsable values
become `na` (NaT) rather than raising; numbers are read as epoch offsets
(offsets before the epoch are outside the modelled timestamp range);
datetimes pass through. -/
def to_datetime (P : Parsers) : Cell → Cell
  | .na => .na
  | .num x => if 0 ≤ x then .time x.toNat else .na
  | .str s =>
    match P.parseDate s with
    | some t => .time t
    | none => .na
  | .time t => .time t

/-- Model of `pd.to_numeric(value, errors="coerce")`, cell-wise: unparsable values
become `na` (NaN); numbers pass through; datetimes convert to their epoch
offset. -/
def to_numeric (P : Parsers) : Cell → Cell
  | .na => .na
  | .num x => .num x
  | .str s =>
    match P.parseNum s with
    | some x => .num x
    | none => .na
  | .time t => .num (Int.ofNat t)

def Cell.isTime : Cell → Bool
  | .time _ => true
  | _ => false

def Cell.isNum : Cell → Bool
  | .num _ => true
  | _ => false

/-- Whether a cell can live in a column of numeric dtype (numbers and NaN). -/
def Cell.isNumOrNa : Cell → Bool
  | .num _ => true
  | .na => true
  | _ => false

def Cell.timeVal : Cell → Nat
  | .time t => t
  | _ => 0

def Cell.numVal : Cell → Int
  | .num x => x
  | _ => 0

/-- A loaded dataframe: a header of column names and rows of cells in column
order (`pd.read_csv` guarantees at least one column, so an empty header only
arises for tables the script never sees). -/
structure RawTable where
  header : List String
  rows : List (List Cell)
deriving DecidableEq

/-- Line 62, `time_col = df_columns[0]`: the time column is always the first
column in file order. -/
def time_col (tbl : RawTable) : String := tbl.header.headD ""

/-- The cell-wise effect on one row of
`df[time_col] = pd.to_datetime(df[time_col], errors="coerce")` (line 65):
the time column is column 0. -/
def parseTimeRow (P : Parsers) : List Cell → List Cell
  | [] => []
  | c :: rest => to_datetime P c :: rest

def parseTimes (P : Parsers) (tbl : RawTable) : RawTable :=
  { tbl with rows := tbl.rows.map (parseTimeRow P) }

/-- Line 68, `df.dropna(subset=[time_col])`. -/
def dropBadTimes (tbl : RawTable) : RawTable :=
  { tbl with rows := tbl.rows.filter (fun r => (r.getD 0 Cell.na).isTime) }

def rowTime (r : List Cell) : Nat := (r.getD 0 Cell.na).timeVal

/-- Row order used by `.sort_values(time_col)` (line 68). -/
def rowLe (a b : List Cell) : Prop := rowTime a ≤ rowTime b

instance rowLeDecidable : DecidableRel rowLe := fun _ _ => Nat.decLe _ _

instance rowLeTotal : IsTotal (List Cell) rowLe := ⟨fun _ _ => Nat.le_total _ _⟩

instance rowLeTrans : IsTrans (List Cell) rowLe := ⟨fun _ _ _ => Nat.le_trans⟩

def sortByTime (tbl : RawTable) : RawTable :=
  { tbl with rows := List.insertionSort rowLe tbl.rows }

/-- The dataframe after line 68: time column parsed, rows with unparsable
times dropped, remaining rows sorted ascending by time. -/
def df_sorted (P : Parsers) (tbl : RawTable) : RawTable :=
  sortByTime (dropBadTimes (parseTimes P tbl))

/-- Line 71, `common_price_names`. -/
def common_price_names : List String :=
  ["Close", "close", "PRICE", "Price", "price", "Last", "last"]

/-- The `for name in common_price_names: if name in df.columns: break` loop
(lines 72-76): the first priority name present among the columns. -/
def price_col_exact (header : List String) : Option String :=
  common_price_names.find? (fun n => header.contains n)

/-- Model of `pd.api.types.is_numeric_dtype(df[c])` for the column at position `j`:
every cell is a number or NaN. -/
def is_numeric_col (tbl : RawTable) (j : Nat) : Bool :=
  tbl.rows.all (fun r => (r.getD j Cell.na).isNumOrNa)

/-- Lines 80 and 87, `[c for c in df.columns if c != time_col and is_numeric_dtype(df[c])]`
(lines 80 and 87). -/
def numeric_cols (tbl : RawTable) : List String :=
  (tbl.header.enum.filter
    (fun pr => pr.2 != time_col tbl && is_numeric_col tbl pr.1)).map Prod.snd

/-- Apply `f` to each cell of a row together with its column position,
starting at position `i`. -/
def mapCellsFrom (f : Nat → Cell → Cell) : Nat → List Cell → List Cell
  | _, [] => []
  | i, c :: rest => f i c :: mapCellsFrom f (i + 1) rest

/-- The coercion fallback of lines 83-86: every column whose name differs
from the time column's name is forced to numeric. -/
def coerceNonTime (P : Parsers) (tbl : RawTable) : RawTable :=
  { tbl with rows := tbl.rows.map (mapCellsFrom
      (fun i c => if tbl.header.getD i "" != time_col tbl then to_numeric P c else c) 0) }

/-- Lines 72-94: the chosen price column name together with the dataframe as
it stands after the choice (the fallback of lines 83-86 may have coerced its
non-time columns); `none` means line 92's `st.stop()` is reached. -/
def select_price (P : Parsers) (tbl : RawTable) : Option (String × RawTable) :=
  match price_col_exact tbl.header with
  | some n => some (n, tbl)
  | none =>
    match numeric_cols tbl with
    | c :: _ => some (c, tbl)
    | [] =>
      match numeric_cols (coerceNonTime P tbl) with
      | c :: _ => some (c, coerceNonTime P tbl)
      | [] => none

/-- Line 97, `df[price_col] = pd.to_numeric(df[price_col], errors="coerce")`,
where `j` is the position of the price column. -/
def coerceCol (P : Parsers) (j : Nat) (tbl : RawTable) : RawTable :=
  { tbl with rows := tbl.rows.map (mapCellsFrom
      (fun i c => if i == j then to_numeric P c else c) 0) }

/-- Line 98, `df = df.dropna(subset=[price_col])`. -/
def dropBadPrice (j : Nat) (tbl : RawTable) : RawTable :=
  { tbl with rows := tbl.rows.filter (fun r => (r.getD j Cell.na).isNum) }

/-- The dataframe as it stands after line 98, with the chosen price column
name; `none` when column inference failed. -/
def df_final (P : Parsers) (tbl : RawTable) : Option (String × RawTable) :=
  (select_price P (df_sorted P tbl)).map (fun pr =>
    (pr.1, dropBadPrice (pr.2.header.indexOf pr.1)
      (coerceCol P (pr.2.header.indexOf pr.1) pr.2)))

/-- The canonical time-to-price series extracted for resampling
(`df.set_index(time_col)[price_col]`, line 107), price taken from the column
at position `j`. -/
def extractSeries (j : Nat) (tbl : RawTable) : List (Nat × Int) :=
  tbl.rows.map (fun r => ((r.getD 0 Cell.na).timeVal, (r.getD j Cell.na).numVal))

/-- The ways a rerun can halt without producing a chart. -/
inductive AppError
  | fileNotFound
  | noPriceColumnFound
  | keyError
deriving DecidableEq

/-- The whole pipeline of `app.py` for one rerun.  `fileExists` models the
check of line 44.  When the chosen price column is the time column itself,
`df.set_index(time_col)` (line 107) consumes that column, so the subsequent
`[price_col]` lookup raises an uncaught `KeyError` and the rerun halts with
an exception instead of a chart (`keyError`; on pandas versions where
line 97's `to_numeric` on a datetime column raises instead, the rerun halts
there — either way it is the same third, exceptional halt). -/
def runPipeline (fileExists : Bool) (P : Parsers) (tbl : RawTable)
    (res : Resolution) : Except AppError (List (Nat × Int)) :=
  if !fileExists then Except.error AppError.fileNotFound
  else
    match df_final P tbl with
    | none => Except.error AppError.noPriceColumnFound
    | some (pc, t3) =>
      if pc == time_col t3 then Except.error AppError.keyError
      else Except.ok (resample res.width (extractSeries (t3.header.indexOf pc) t3))

/-- Parsers used for concrete evaluations: `d10:00` and `d10:30` parse as
times on 2020-01-01, `d9:00` as a time on 2020-01-02, `n100` as the number
100; everything else fails to parse. -/
def Ptest : Parsers where
  parseDate s :=
    if s = "d10:00" then some 1577872800
    else if s = "d10:30" then some 1577874600
    else if s = "d9:00" then some 1577955600
    else none
  parseNum s := if s = "n100" then some 100 else none

/-- A concrete two-column table for witnesses: a date column and a "Close"
price column with one well-formed row. -/
def tblW : RawTable := ⟨["Date", "Close"], [[Cell.str "d10:00", Cell.num 100]]⟩

/-- A concrete table whose first column is named "Close": witnesses the
time/price overlap. -/
def tblC : RawTable := ⟨["Close", "Volume"], [[Cell.str "d10:00", Cell.num 5]]⟩

/-- Split one line of text at every occurrence of the separator character
(field count = separator count + 1, as the pandas parser does). -/
def splitCells (sep : Char) : List Char → List (List Char)
  | [] => [[]]
  | c :: rest =>
    if c = sep then [] :: splitCells sep rest
    else
      match splitCells sep rest with
      | [] => [[c]]
      | f :: fs => (c :: f) :: fs

/-- Model of `pd.read_csv(path, sep=...)` at the level of lines and fields. -/
def readCsv (sep : Char) (lines : List (List Char)) : List (List (List Char)) :=
  lines.map (splitCells sep)

/-- Column count `df.shape[1]`: the number of columns, i.e. the field count of the header
line. -/
def numCols (t : List (List (List Char))) : Nat := (t.headD []).length

/-- Lines 32-41, `load_csv`: parse with a comma first; if that yields
exactly one column, re-parse the file with a semicolon separator. -/
def load_csv (lines : List (List Char)) : List (List (List Char)) :=
  if numCols (readCsv ',' lines) == 1 then readCsv ';' lines
  else readCsv ',' lines

theorem Resolution.width_pos (res : Resolution) : 0 < res.width := by
  cases res <;> decide

example : resample 86400 [(36000, 100), (37800, 105), (119400, 110)] =
    [(0, 105), (86400, 110)] := by decide

example : resample 3600 [(36000, 100), (37800, 105), (119400, 110)] =
    [(36000, 105), (118800, 110)] := by decide

theorem mem_bucketStarts {w : Nat} {s : List (Nat × Int)} {b : Nat} :
    b ∈ bucketStarts w s ↔ ∃ r ∈ s, bucket w r.1 = b := by
  unfold bucketStarts
  rw [(List.perm_insertionSort _ _).mem_iff, List.mem_dedup, List.mem_map]

theorem lastInBucket_isSome {w : Nat} {s : List (Nat × Int)} {b : Nat}
    (h : b ∈ bucketStarts w s) : (lastInBucket w s b).isSome := by
  obtain ⟨r, hr, hb⟩ := mem_bucketStarts.mp h
  unfold lastInBucket
  have hmem : r ∈ s.filter (fun r => bucket w r.1 == b) :=
    List.mem_filter.mpr ⟨hr, by simpa using hb⟩
  have hsome : ((s.filter (fun r => bucket w r.1 == b)).getLast?).isSome :=
    List.getLast?_isSome.mpr (List.ne_nil_of_mem hmem)
  rcases Option.isSome_iff_exists.mp hsome with ⟨x, hx⟩
  simp [hx]

theorem map_fst_resample (w : Nat) (s : List (Nat × Int)) :
    (resample w s).map Prod.fst = bucketStarts w s := by
  unfold resample
  have h : ∀ L : List Nat, (∀ b ∈ L, (lastInBucket w s b).isSome) →
      (L.filterMap (fun b => (lastInBucket w s b).map (fun p => (b, p)))).map Prod.fst = L := by
    intro L
    induction L with
    | nil => intro _; rfl
    | cons a L ih =>
      intro hall
      have ha := hall a (List.mem_cons_self a L)
      rcases Option.isSome_iff_exists.mp ha with ⟨p, hp⟩
      simp only [List.filterMap_cons, hp, Option.map_some']
      simp only [List.map_cons]
      rw [ih (fun b hb => hall b (List.mem_cons_of_mem a hb))]
  exact h _ (fun b hb => lastInBucket_isSome hb)

theorem mem_resample {w : Nat} {s : List (Nat × Int)} {b : Nat} {p : Int} :
    (b, p) ∈ resample w s ↔ b ∈ bucketStarts w s ∧ lastInBucket w s b = some p := by
  unfold resample
  rw [List.mem_filterMap]
  constructor
  · rintro ⟨a, ha, hab⟩
    rcases Option.map_eq_some'.mp hab with ⟨q, hq, heq⟩
    cases heq
    exact ⟨ha, hq⟩
  · rintro ⟨hb, hp⟩
    exact ⟨b, hb, by simp [hp]⟩

theorem bucket_eq_iff {w t b : Nat} (hw : 0 < w) (hb : w ∣ b) :
    bucket w t = b ↔ b ≤ t ∧ t < b + w := by
  obtain ⟨q, rfl⟩ := hb
  unfold bucket
  constructor
  · intro h
    have h1 : w * (t / w) ≤ t := by
      calc w * (t / w) = t / w * w := Nat.mul_comm _ _
        _ ≤ t := Nat.div_mul_le_self t w
    have h2 : t < w * (t / w) + w := by
      have hdm := Nat.div_add_mod t w
      have hm := Nat.mod_lt t hw
      omega
    exact ⟨h ▸ h1, h ▸ h2⟩
  · rintro ⟨h1, h2⟩
    have hq1 : q ≤ t / w := (Nat.le_div_iff_mul_le hw).mpr (by rw [Nat.mul_comm]; exact h1)
    have hq2 : t / w < q + 1 := (Nat.div_lt_iff_lt_mul hw).mpr (by
      have he : (q + 1) * w = w * q + w := by ring
      rw [he]; exact h2)
    have hq : t / w = q := by omega
    rw [hq]

theorem dvd_of_mem_bucketStarts {w : Nat} {s : List (Nat × Int)} {b : Nat}
    (h : b ∈ bucketStarts w s) : w ∣ b := by
  obtain ⟨r, _, hrb⟩ := mem_bucketStarts.mp h
  exact ⟨r.1 / w, hrb.symm⟩

theorem bucket_of_dvd {w b : Nat} (hw : 0 < w) (hb : w ∣ b) : bucket w b = b :=
  (bucket_eq_iff hw hb).mpr ⟨Nat.le_refl b, Nat.lt_add_of_pos_right hw⟩

/-- C1: for every bucket present in the resampled output, its price equals the
price of the chronologically last retained row (the series being sorted
ascending by time) whose timestamp falls within that bucket's half-open
interval, for every granularity in {daily, hourly, 15-minute, 5-minute}. -/
theorem resample_last_in_interval (res : Resolution) (s : List (Nat × Int))
    (_hs : List.Sorted (fun a b => a.1 ≤ b.1) s) {b : Nat} {p : Int}
    (h : (b, p) ∈ resample res.width s) :
    lastInInterval res.width s b = some p := by
  obtain ⟨hb, hlast⟩ := mem_resample.mp h
  have hdvd : res.width ∣ b := dvd_of_mem_bucketStarts hb
  have hfe : s.filter (fun r => bucket res.width r.1 == b)
      = s.filter (fun r => b ≤ r.1 && r.1 < b + res.width) := by
    apply List.filter_congr
    intro x _
    rw [Bool.eq_iff_iff]
    simp only [beq_iff_eq, Bool.and_eq_true, decide_eq_true_eq]
    exact bucket_eq_iff res.width_pos hdvd
  unfold lastInInterval
  rw [← hfe]
  exact hlast

theorem resample_last_in_interval_witness :
    lastInInterval Resolution.D.width [(36000, 100), (37800, 105), (119400, 110)] 0
      = some 105 :=
  resample_last_in_interval Resolution.D _ (by decide) (by decide)

/-- C4: the resampled output contains no row for a bucket interval holding
zero retained observations: every output bucket contains at least one
observation of the input series. -/
theorem resample_no_empty_buckets (res : Resolution) (s : List (Nat × Int))
    {b : Nat} {p : Int} (h : (b, p) ∈ resample res.width s) :
    ∃ r ∈ s, b ≤ r.1 ∧ r.1 < b + res.width := by
  obtain ⟨hb, _⟩ := mem_resample.mp h
  obtain ⟨r, hr, hrb⟩ := mem_bucketStarts.mp hb
  exact ⟨r, hr, (bucket_eq_iff res.width_pos (dvd_of_mem_bucketStarts hb)).mp hrb⟩

theorem resample_no_empty_buckets_witness :
    ∃ r ∈ [((36000 : Nat), (100 : Int)), (37800, 105), (119400, 110)],
      86400 ≤ r.1 ∧ r.1 < 86400 + Resolution.D.width :=
  @resample_no_empty_buckets Resolution.D
    [((36000 : Nat), (100 : Int)), (37800, 105), (119400, 110)] 86400 110 (by decide)

/-- C10: for every input series and granularity the resampled output's time
values are strictly increasing (hence pairwise distinct): at most one output
row per bucket, keyed by bucket start, even when the input contains
duplicate timestamps. -/
theorem resample_times_strict_mono (res : Resolution) (s : List (Nat × Int)) :
    List.Sorted (· < ·) ((resample res.width s).map Prod.fst) := by
  rw [map_fst_resample]
  have hsorted : List.Sorted (· ≤ ·) (bucketStarts res.width s) :=
    List.sorted_insertionSort _ _
  have hnodup : (bucketStarts res.width s).Nodup :=
    ((List.perm_insertionSort _ _).nodup_iff).mpr (List.nodup_dedup _)
  exact hsorted.lt_of_le hnodup

theorem bucket_fst_of_mem_resample {w : Nat} {s : List (Nat × Int)}
    (hw : 0 < w) {x : Nat × Int} (hx : x ∈ resample w s) : bucket w x.1 = x.1 := by
  obtain ⟨b, p⟩ := x
  obtain ⟨hb, _⟩ := mem_resample.mp hx
  exact bucket_of_dvd hw (dvd_of_mem_bucketStarts hb)

theorem bucketStarts_resample (res : Resolution) (s : List (Nat × Int)) :
    bucketStarts res.width (resample res.width s) = bucketStarts res.width s := by
  have hmap : (resample res.width s).map (fun r => bucket res.width r.1)
      = (resample res.width s).map Prod.fst :=
    List.map_congr_left (fun x hx => bucket_fst_of_mem_resample res.width_pos hx)
  unfold bucketStarts
  rw [hmap, map_fst_resample]
  have hnodup : (bucketStarts res.width s).Nodup :=
    ((List.perm_insertionSort _ _).nodup_iff).mpr (List.nodup_dedup _)
  have hsorted : List.Sorted (· ≤ ·) (bucketStarts res.width s) :=
    List.sorted_insertionSort _ _
  rw [List.dedup_eq_self.mpr hnodup]
  exact hsorted.insertionSort_eq

theorem filter_key_eq_of_nodup :
    ∀ (l : List (Nat × Int)) (b : Nat) (p : Int), (l.map Prod.fst).Nodup →
      (b, p) ∈ l → l.filter (fun r => r.1 == b) = [(b, p)] := by
  intro l
  induction l with
  | nil => intro b p _ hmem; cases hmem
  | cons x xs ih =>
    intro b p hnodup hmem
    rw [List.map_cons] at hnodup
    have hnd := List.nodup_cons.mp hnodup
    rcases List.mem_cons.mp hmem with hx | hxs
    · subst hx
      have hrest : xs.filter (fun r => r.1 == b) = [] := by
        apply List.filter_eq_nil_iff.mpr
        intro y hy
        have : y.1 ∈ xs.map Prod.fst := List.mem_map_of_mem Prod.fst hy
        simp only [beq_iff_eq]
        intro hcontra
        exact hnd.1 (hcontra ▸ this)
      simp [List.filter_cons, hrest]
    · have hxb : x.1 ≠ b := by
        intro hcontra
        have : b ∈ xs.map Prod.fst := List.mem_map_of_mem Prod.fst hxs
        exact hnd.1 (hcontra ▸ this)
      rw [List.filter_cons_of_neg (by simpa using hxb)]
      exact ih b p hnd.2 hxs

theorem lastInBucket_resample (res : Resolution) (s : List (Nat × Int))
    {b : Nat} {p : Int} (h : (b, p) ∈ resample res.width s) :
    lastInBucket res.width (resample res.width s) b = some p := by
  have hnodup : ((resample res.width s).map Prod.fst).Nodup := by
    rw [map_fst_resample]
    exact ((List.perm_insertionSort _ _).nodup_iff).mpr (List.nodup_dedup _)
  have hfe : (resample res.width s).filter (fun r => bucket res.width r.1 == b)
      = (resample res.width s).filter (fun r => r.1 == b) :=
    List.filter_congr (fun x hx => by
      rw [bucket_fst_of_mem_resample res.width_pos hx])
  unfold lastInBucket
  rw [hfe, filter_key_eq_of_nodup _ b p hnodup h]
  rfl

theorem filterMap_map_fst_eq_self :
    ∀ (l : List (Nat × Int)) (g : Nat → Option (Nat × Int)),
      (∀ x ∈ l, g x.1 = some x) → (l.map Prod.fst).filterMap g = l := by
  intro l g
  induction l with
  | nil => intro _; rfl
  | cons x xs ih =>
    intro hall
    simp only [List.map_cons, List.filterMap_cons, hall x (List.mem_cons_self x xs)]
    rw [ih (fun y hy => hall y (List.mem_cons_of_mem x hy))]

/-- C2: resampling is idempotent — applying the resample-and-take-last-then-
drop-empty operation to its own output at the same granularity yields that
output unchanged, for every granularity in the fixed set. -/
theorem resample_idempotent (res : Resolution) (s : List (Nat × Int)) :
    resample res.width (resample res.width s) = resample res.width s := by
  conv_lhs => rw [resample]
  rw [bucketStarts_resample, ← map_fst_resample res.width s]
  apply filterMap_map_fst_eq_self
  intro x hx
  obtain ⟨b, p⟩ := x
  rw [lastInBucket_resample res s hx]
  rfl

theorem time_col_eq_getD (tbl : RawTable) : time_col tbl = tbl.header.getD 0 "" := by
  unfold time_col
  cases tbl.header <;> rfl

theorem to_numeric_idem (P : Parsers) (c : Cell) :
    to_numeric P (to_numeric P c) = to_numeric P c := by
  cases c with
  | na => rfl
  | num x => rfl
  | str s => cases h : P.parseNum s <;> simp [to_numeric, h]
  | time t => rfl

theorem to_numeric_isNumOrNa (P : Parsers) (c : Cell) :
    (to_numeric P c).isNumOrNa := by
  cases c with
  | na => rfl
  | num x => rfl
  | str s => cases h : P.parseNum s <;> simp [to_numeric, Cell.isNumOrNa, h]
  | time t => rfl

theorem parseTimeRow_getD_zero (P : Parsers) (r : List Cell) :
    (parseTimeRow P r).getD 0 Cell.na = to_datetime P (r.getD 0 Cell.na) := by
  cases r <;> rfl

theorem parseTimeRow_getD_succ (P : Parsers) (r : List Cell) (j : Nat) :
    (parseTimeRow P r).getD (j + 1) Cell.na = r.getD (j + 1) Cell.na := by
  cases r <;> rfl

theorem mapCellsFrom_getD (f : Nat → Cell → Cell) :
    ∀ (i : Nat) (r : List Cell) (j : Nat),
      (mapCellsFrom f i r).getD j Cell.na =
        if j < r.length then f (i + j) (r.getD j Cell.na) else Cell.na := by
  intro i r
  induction r generalizing i with
  | nil => intro j; simp [mapCellsFrom]
  | cons c rest ih =>
    intro j
    cases j with
    | zero => simp [mapCellsFrom]
    | succ j =>
      simp only [mapCellsFrom, List.getD_cons_succ, List.length_cons]
      rw [ih (i + 1) j]
      have hi : i + 1 + j = i + (j + 1) := by omega
      rw [hi]
      by_cases hj : j < rest.length
      · rw [if_pos hj, if_pos (by omega)]
      · rw [if_neg hj, if_neg (by omega)]

theorem df_sorted_header (P : Parsers) (tbl : RawTable) :
    (df_sorted P tbl).header = tbl.header := rfl

theorem mem_df_sorted {P : Parsers} {tbl : RawTable} {r : List Cell} :
    r ∈ (df_sorted P tbl).rows ↔
      (∃ r0 ∈ tbl.rows, r = parseTimeRow P r0) ∧ (r.getD 0 Cell.na).isTime := by
  simp only [df_sorted, sortByTime, dropBadTimes, parseTimes]
  rw [(List.perm_insertionSort _ _).mem_iff, List.mem_filter, List.mem_map]
  constructor
  · rintro ⟨⟨r0, h0, rfl⟩, ht⟩
    exact ⟨⟨r0, h0, rfl⟩, ht⟩
  · rintro ⟨⟨r0, h0, rfl⟩, ht⟩
    exact ⟨⟨r0, h0, rfl⟩, ht⟩

theorem df_sorted_sorted (P : Parsers) (tbl : RawTable) :
    List.Sorted rowLe (df_sorted P tbl).rows :=
  List.sorted_insertionSort rowLe _

theorem numeric_cols_mem {t : RawTable} {n : String} (h : n ∈ numeric_cols t) :
    ∃ i, i < t.header.length ∧ t.header.getD i "" = n ∧
      n ≠ time_col t ∧ is_numeric_col t i := by
  unfold numeric_cols at h
  rcases List.mem_map.mp h with ⟨⟨i, m⟩, hmem, hm⟩
  cases hm
  rcases List.mem_filter.mp hmem with ⟨henum, hpred⟩
  rw [List.mem_enum_iff_getElem?] at henum
  rcases List.getElem?_eq_some.mp henum with ⟨hlt, _⟩
  rw [Bool.and_eq_true] at hpred
  obtain ⟨hne, hnum⟩ := hpred
  refine ⟨i, hlt, ?_, by simpa using hne, hnum⟩
  rw [List.getD_eq_getElem?_getD, henum]
  rfl

theorem numeric_cols_subset_header {t : RawTable} {n : String}
    (h : n ∈ numeric_cols t) : n ∈ t.header := by
  unfold numeric_cols at h
  rcases List.mem_map.mp h with ⟨⟨i, m⟩, hmem, hm⟩
  cases hm
  rcases List.mem_filter.mp hmem with ⟨henum, _⟩
  rw [List.mem_enum_iff_getElem?] at henum
  exact List.getElem?_mem henum

theorem price_col_exact_mem {header : List String} {n : String}
    (h : price_col_exact header = some n) :
    n ∈ common_price_names ∧ n ∈ header := by
  refine ⟨List.mem_of_find?_eq_some h, ?_⟩
  have := List.find?_some h
  simpa [List.elem_iff] using this

theorem select_price_cases {P : Parsers} {t : RawTable} {pc : String} {t2 : RawTable}
    (h : select_price P t = some (pc, t2)) :
    (price_col_exact t.header = some pc ∧ t2 = t) ∨
    (price_col_exact t.header = none ∧ pc ∈ numeric_cols t ∧ t2 = t) ∨
    (price_col_exact t.header = none ∧ numeric_cols t = [] ∧
      pc ∈ numeric_cols (coerceNonTime P t) ∧ t2 = coerceNonTime P t) := by
  unfold select_price at h
  cases hex : price_col_exact t.header with
  | some n =>
    rw [hex] at h
    simp only [Option.some.injEq, Prod.mk.injEq] at h
    refine Or.inl ⟨?_, h.2.symm⟩
    rw [h.1]
  | none =>
    rw [hex] at h
    cases hnc : numeric_cols t with
    | cons c rest =>
      rw [hnc] at h
      simp only [Option.some.injEq, Prod.mk.injEq] at h
      refine Or.inr (Or.inl ⟨rfl, ?_, h.2.symm⟩)
      rw [← h.1]
      exact List.mem_cons_self c rest
    | nil =>
      rw [hnc] at h
      cases hnc2 : numeric_cols (coerceNonTime P t) with
      | cons c rest =>
        rw [hnc2] at h
        simp only [Option.some.injEq, Prod.mk.injEq] at h
        refine Or.inr (Or.inr ⟨rfl, rfl, ?_, h.2.symm⟩)
        rw [← h.1]
        exact List.mem_cons_self c rest
      | nil => rw [hnc2] at h; cases h

theorem select_price_header {P : Parsers} {t : RawTable} {pc : String} {t2 : RawTable}
    (h : select_price P t = some (pc, t2)) : t2.header = t.header := by
  rcases select_price_cases h with ⟨_, rfl⟩ | ⟨_, _, rfl⟩ | ⟨_, _, _, rfl⟩
  · rfl
  · rfl
  · rfl

theorem select_price_mem_header {P : Parsers} {t : RawTable} {pc : String}
    {t2 : RawTable} (h : select_price P t = some (pc, t2)) : pc ∈ t.header := by
  rcases select_price_cases h with ⟨hex, _⟩ | ⟨_, hmem, _⟩ | ⟨_, _, hmem, _⟩
  · exact (price_col_exact_mem hex).2
  · exact numeric_cols_subset_header hmem
  · have := numeric_cols_subset_header hmem
    simpa [coerceNonTime] using this

theorem coerceNonTime_row_getD_zero (P : Parsers) (t : RawTable) (r : List Cell) :
    (mapCellsFrom (fun i c =>
      if t.header.getD i "" != time_col t then to_numeric P c else c) 0 r).getD 0 Cell.na
      = r.getD 0 Cell.na := by
  rw [mapCellsFrom_getD]
  by_cases h : 0 < r.length
  · rw [if_pos h, time_col_eq_getD]
    simp
  · rw [if_neg h]
    cases r with
    | nil => rfl
    | cons a l => exact absurd (by simp) h

theorem coerceNonTime_row_getD_ne (P : Parsers) (t : RawTable) (r : List Cell)
    (j : Nat) (hne : t.header.getD j "" ≠ time_col t) :
    (mapCellsFrom (fun i c =>
      if t.header.getD i "" != time_col t then to_numeric P c else c) 0 r).getD j Cell.na
      = to_numeric P (r.getD j Cell.na) := by
  rw [mapCellsFrom_getD]
  by_cases h : j < r.length
  · rw [if_pos h]
    simp only [Nat.zero_add]
    rw [if_pos (by simpa using hne)]
  · rw [if_neg h, List.getD_eq_getElem?_getD, List.getElem?_eq_none (by omega),
      Option.getD_none]
    rfl

theorem coerceCol_row_getD_self (P : Parsers) (j : Nat) (r : List Cell) :
    (mapCellsFrom (fun i c => if i == j then to_numeric P c else c) 0 r).getD j Cell.na
      = to_numeric P (r.getD j Cell.na) := by
  rw [mapCellsFrom_getD]
  by_cases h : j < r.length
  · rw [if_pos h]
    simp
  · rw [if_neg h, List.getD_eq_getElem?_getD, List.getElem?_eq_none (by omega),
      Option.getD_none]
    rfl

theorem coerceCol_row_getD_other (P : Parsers) (j k : Nat) (hk : k ≠ j)
    (r : List Cell) :
    (mapCellsFrom (fun i c => if i == j then to_numeric P c else c) 0 r).getD k Cell.na
      = r.getD k Cell.na := by
  rw [mapCellsFrom_getD]
  by_cases h : k < r.length
  · rw [if_pos h]
    simp only [Nat.zero_add]
    rw [if_neg (by simpa using hk)]
  · rw [if_neg h, List.getD_eq_getElem?_getD, List.getElem?_eq_none (by omega),
      Option.getD_none]

theorem find?_first_of_mem {l : List String} {pred : String → Bool} {n : String}
    (h : l.find? pred = some n) :
    ∀ m ∈ l, pred m → l.indexOf n ≤ l.indexOf m := by
  induction l with
  | nil => cases h
  | cons a l ih =>
    intro m hm hpm
    by_cases ha : pred a = true
    · rw [List.find?_cons_of_pos _ ha] at h
      cases h
      simp
    · rw [List.find?_cons_of_neg _ ha] at h
      have hna : n ≠ a := fun hcontra => ha (hcontra ▸ List.find?_some h)
      rcases List.mem_cons.mp hm with rfl | hml
      · exact absurd hpm ha
      · have hma : m ≠ a := fun hcontra => ha (hcontra ▸ hpm)
        rw [List.indexOf_cons_ne _ hna.symm, List.indexOf_cons_ne _ hma.symm]
        exact Nat.succ_le_succ (ih h m hml hpm)

/-- C7: the time column is always the first column in file order, with no
content-based selection: it does not depend on the rows at all. -/
theorem time_col_first (header : List String) (rows rows' : List (List Cell))
    (h : header ≠ []) :
    time_col ⟨header, rows⟩ = header.head h ∧
    time_col ⟨header, rows⟩ = time_col ⟨header, rows'⟩ := by
  refine ⟨?_, rfl⟩
  unfold time_col
  cases header with
  | nil => exact absurd rfl h
  | cons a l => rfl

theorem time_col_first_witness : time_col ⟨["Date", "Close"], [[Cell.na]]⟩ = "Date" :=
  (time_col_first ["Date", "Close"] [[Cell.na]] [] (by decide)).1

/-- C3: whenever a column named exactly "Close" exists it is selected as the
price column, regardless of any other (numeric) columns and without touching
the table; in general the exact-match winner is the first name of the
priority list that occurs among the table's columns. -/
theorem price_col_priority (P : Parsers) (tbl : RawTable) :
    ("Close" ∈ tbl.header → select_price P tbl = some ("Close", tbl)) ∧
    (∀ n, price_col_exact tbl.header = some n →
      n ∈ common_price_names ∧ n ∈ tbl.header ∧
      ∀ m ∈ common_price_names, m ∈ tbl.header →
        common_price_names.indexOf n ≤ common_price_names.indexOf m) := by
  constructor
  · intro hmem
    have hfound : price_col_exact tbl.header = some "Close" := by
      unfold price_col_exact common_price_names
      rw [List.find?_cons_of_pos]
      simpa [List.elem_iff] using hmem
    unfold select_price
    rw [hfound]
  · intro n hn
    obtain ⟨hc, hh⟩ := price_col_exact_mem hn
    refine ⟨hc, hh, ?_⟩
    intro m hmc hmh
    exact find?_first_of_mem hn m hmc (by simpa [List.elem_iff] using hmh)

theorem price_col_priority_witness :
    select_price Ptest ⟨["Date", "Volume", "Close"], []⟩
      = some ("Close", ⟨["Date", "Volume", "Close"], []⟩) :=
  (price_col_priority Ptest ⟨["Date", "Volume", "Close"], []⟩).1 (by decide)

theorem time_col_df_sorted (P : Parsers) (tbl : RawTable) :
    time_col (df_sorted P tbl) = time_col tbl := rfl

theorem time_col_t2 {P : Parsers} {tbl : RawTable} {pc : String} {t2 : RawTable}
    (hsel : select_price P (df_sorted P tbl) = some (pc, t2)) :
    time_col t2 = time_col tbl := by
  rw [time_col_eq_getD, time_col_eq_getD, select_price_header hsel, df_sorted_header]

theorem mem_dropBadPrice {j : Nat} {t : RawTable} {r : List Cell} :
    r ∈ (dropBadPrice j t).rows ↔ r ∈ t.rows ∧ (r.getD j Cell.na).isNum := by
  simp [dropBadPrice, List.mem_filter]

theorem mem_coerceCol {P : Parsers} {j : Nat} {t : RawTable} {r : List Cell} :
    r ∈ (coerceCol P j t).rows ↔ ∃ r2 ∈ t.rows,
      r = mapCellsFrom (fun i c => if i == j then to_numeric P c else c) 0 r2 := by
  simp only [coerceCol]
  rw [List.mem_map]
  constructor
  · rintro ⟨r2, h2, rfl⟩; exact ⟨r2, h2, rfl⟩
  · rintro ⟨r2, h2, rfl⟩; exact ⟨r2, h2, rfl⟩

theorem mem_coerceNonTime {P : Parsers} {t : RawTable} {r : List Cell} :
    r ∈ (coerceNonTime P t).rows ↔ ∃ r1 ∈ t.rows,
      r = mapCellsFrom (fun i c =>
        if t.header.getD i "" != time_col t then to_numeric P c else c) 0 r1 := by
  simp only [coerceNonTime]
  rw [List.mem_map]
  constructor
  · rintro ⟨r1, h1, rfl⟩; exact ⟨r1, h1, rfl⟩
  · rintro ⟨r1, h1, rfl⟩; exact ⟨r1, h1, rfl⟩

theorem t2_row_origin {P : Parsers} {tbl : RawTable} {pc : String} {t2 : RawTable}
    (hsel : select_price P (df_sorted P tbl) = some (pc, t2)) (j : Nat)
    (hj : tbl.header.getD j "" ≠ time_col tbl) :
    ∀ r2 ∈ t2.rows, ∃ r1 ∈ (df_sorted P tbl).rows,
      r2.getD 0 Cell.na = r1.getD 0 Cell.na ∧
      to_numeric P (r2.getD j Cell.na) = to_numeric P (r1.getD j Cell.na) := by
  rcases select_price_cases hsel with ⟨_, rfl⟩ | ⟨_, _, rfl⟩ | ⟨_, _, _, rfl⟩
  · intro r2 h2; exact ⟨r2, h2, rfl, rfl⟩
  · intro r2 h2; exact ⟨r2, h2, rfl, rfl⟩
  · intro r2 h2
    rcases mem_coerceNonTime.mp h2 with ⟨r1, h1, rfl⟩
    have hj' : (df_sorted P tbl).header.getD j "" ≠ time_col (df_sorted P tbl) := hj
    refine ⟨r1, h1, coerceNonTime_row_getD_zero P _ r1, ?_⟩
    rw [coerceNonTime_row_getD_ne P _ r1 j hj', to_numeric_idem]

theorem t2_rows_sorted {P : Parsers} {tbl : RawTable} {pc : String} {t2 : RawTable}
    (hsel : select_price P (df_sorted P tbl) = some (pc, t2)) :
    List.Sorted rowLe t2.rows := by
  rcases select_price_cases hsel with ⟨_, rfl⟩ | ⟨_, _, rfl⟩ | ⟨_, _, _, rfl⟩
  · exact df_sorted_sorted P tbl
  · exact df_sorted_sorted P tbl
  · have hs := df_sorted_sorted P tbl
    simp only [coerceNonTime]
    refine List.Pairwise.map _ ?_ hs
    intro a b hab
    unfold rowLe rowTime at hab ⊢
    rw [coerceNonTime_row_getD_zero, coerceNonTime_row_getD_zero]
    exact hab

theorem t3_rows_sorted {P : Parsers} {tbl : RawTable} {pc : String} {t2 : RawTable}
    (hsel : select_price P (df_sorted P tbl) = some (pc, t2))
    {j : Nat} (hj0 : j ≠ 0) :
    List.Sorted rowLe (dropBadPrice j (coerceCol P j t2)).rows := by
  have h2 := t2_rows_sorted hsel
  have hcc : List.Sorted rowLe (coerceCol P j t2).rows := by
    simp only [coerceCol]
    refine List.Pairwise.map _ ?_ h2
    intro a b hab
    unfold rowLe rowTime at hab ⊢
    rw [coerceCol_row_getD_other P j 0 (fun h => hj0 h.symm),
      coerceCol_row_getD_other P j 0 (fun h => hj0 h.symm)]
    exact hab
  exact List.Pairwise.filter _ hcc

theorem Cell.eq_time_of_isTime {c : Cell} (h : c.isTime) : c = Cell.time c.timeVal := by
  cases c with
  | time t => rfl
  | na => cases h
  | num x => cases h
  | str s => cases h

theorem Cell.eq_num_of_isNum {c : Cell} (h : c.isNum) : c = Cell.num c.numVal := by
  cases c with
  | num x => rfl
  | na => cases h
  | str s => cases h
  | time t => cases h

/-- C8: every row of the canonical series handed to the resampler carries a
successfully parsed timestamp and a successfully coerced non-null numeric
price, both being exactly the parses of the cells of one raw input row
(rows failing either parse are removed, not altered), and the series is
sorted in non-decreasing timestamp order. -/
theorem canonical_series_invariants (P : Parsers) (tbl : RawTable)
    {pc : String} {t2 : RawTable}
    (hsel : select_price P (df_sorted P tbl) = some (pc, t2))
    (hpc : pc ≠ time_col tbl) :
    (∀ r ∈ (dropBadPrice (t2.header.indexOf pc)
        (coerceCol P (t2.header.indexOf pc) t2)).rows,
      (r.getD 0 Cell.na).isTime ∧ (r.getD (t2.header.indexOf pc) Cell.na).isNum) ∧
    List.Sorted (fun a b => a.1 ≤ b.1)
      (extractSeries (t2.header.indexOf pc)
        (dropBadPrice (t2.header.indexOf pc) (coerceCol P (t2.header.indexOf pc) t2))) ∧
    (∀ q ∈ extractSeries (t2.header.indexOf pc)
        (dropBadPrice (t2.header.indexOf pc) (coerceCol P (t2.header.indexOf pc) t2)),
      ∃ r0 ∈ tbl.rows,
        to_datetime P (r0.getD 0 Cell.na) = Cell.time q.1 ∧
        to_numeric P (r0.getD (t2.header.indexOf pc) Cell.na) = Cell.num q.2) := by
  have hdr2 : t2.header = tbl.header := by
    rw [select_price_header hsel, df_sorted_header]
  have hpcmem : pc ∈ t2.header := by
    rw [hdr2]
    have hm := select_price_mem_header hsel
    rwa [df_sorted_header] at hm
  have hjlt : t2.header.indexOf pc < t2.header.length :=
    List.indexOf_lt_length.mpr hpcmem
  have hget : t2.header.getD (t2.header.indexOf pc) "" = pc := by
    rw [List.getD_eq_getElem?_getD,
      List.getElem?_eq_some.mpr ⟨hjlt, List.getElem_indexOf hjlt⟩]
    rfl
  have hj0 : t2.header.indexOf pc ≠ 0 := by
    intro h0
    apply hpc
    rw [time_col_eq_getD, ← hdr2, ← h0, hget]
  have hjt : tbl.header.getD (t2.header.indexOf pc) "" ≠ time_col tbl := by
    rw [← hdr2, hget]
    exact hpc
  have hrow : ∀ r ∈ (dropBadPrice (t2.header.indexOf pc)
      (coerceCol P (t2.header.indexOf pc) t2)).rows,
      (r.getD 0 Cell.na).isTime ∧ (r.getD (t2.header.indexOf pc) Cell.na).isNum ∧
      ∃ r0 ∈ tbl.rows,
        to_datetime P (r0.getD 0 Cell.na) = r.getD 0 Cell.na ∧
        to_numeric P (r0.getD (t2.header.indexOf pc) Cell.na)
          = r.getD (t2.header.indexOf pc) Cell.na := by
    intro r hr
    obtain ⟨hcc, hnum⟩ := mem_dropBadPrice.mp hr
    obtain ⟨r2, h2, rfl⟩ := mem_coerceCol.mp hcc
    obtain ⟨r1, h1, hz, hn⟩ := t2_row_origin hsel (t2.header.indexOf pc) hjt r2 h2
    obtain ⟨⟨r0, h0, rfl⟩, htime⟩ := mem_df_sorted.mp h1
    obtain ⟨k, hk⟩ := Nat.exists_eq_succ_of_ne_zero hj0
    have hgj : (parseTimeRow P r0).getD (t2.header.indexOf pc) Cell.na
        = r0.getD (t2.header.indexOf pc) Cell.na := by
      rw [hk]
      exact parseTimeRow_getD_succ P r0 k
    have hz' : (mapCellsFrom (fun i c => if i == t2.header.indexOf pc
        then to_numeric P c else c) 0 r2).getD 0 Cell.na = r2.getD 0 Cell.na :=
      coerceCol_row_getD_other P _ 0 (fun h => hj0 h.symm) r2
    have hs' : (mapCellsFrom (fun i c => if i == t2.header.indexOf pc
        then to_numeric P c else c) 0 r2).getD (t2.header.indexOf pc) Cell.na
        = to_numeric P (r2.getD (t2.header.indexOf pc) Cell.na) :=
      coerceCol_row_getD_self P _ r2
    refine ⟨?_, hnum, r0, h0, ?_, ?_⟩
    · rw [hz', hz]
      exact htime
    · rw [hz', hz, parseTimeRow_getD_zero]
    · rw [hs', hn, hgj]
  refine ⟨fun r hr => ⟨(hrow r hr).1, (hrow r hr).2.1⟩, ?_, ?_⟩
  · have hs3 := t3_rows_sorted hsel hj0
    unfold extractSeries
    refine List.Pairwise.map _ ?_ hs3
    intro a b hab
    exact hab
  · intro q hq
    rcases List.mem_map.mp hq with ⟨r, hr, rfl⟩
    obtain ⟨ht, hn, r0, h0, hb, hc⟩ := hrow r hr
    refine ⟨r0, h0, ?_, ?_⟩
    · rw [hb]
      exact Cell.eq_time_of_isTime ht
    · rw [hc]
      exact Cell.eq_num_of_isNum hn

theorem canonical_series_invariants_witness :
    List.Sorted (fun a b => a.1 ≤ b.1)
      (extractSeries ((df_sorted Ptest tblW).header.indexOf "Close")
        (dropBadPrice ((df_sorted Ptest tblW).header.indexOf "Close")
          (coerceCol Ptest ((df_sorted Ptest tblW).header.indexOf "Close")
            (df_sorted Ptest tblW)))) :=
  (canonical_series_invariants Ptest tblW (by decide) (by decide)).2.1

/-- C9 (amended): the exact-name price match does not exclude the time
column: for any table whose first column bears the first priority-list name
present among the columns (in particular, any table whose first column is
named "Close"), the first column is selected as both the time column and the
price column; its cells are datetime-parsed (line 65) and the resulting
cells subsequently coerced to numeric (line 97). -/
theorem price_time_overlap (P : Parsers) (tbl : RawTable)
    (hex : price_col_exact tbl.header = some (time_col tbl)) :
    select_price P (df_sorted P tbl) = some (time_col tbl, df_sorted P tbl) ∧
    tbl.header.indexOf (time_col tbl) = 0 ∧
    (∀ r ∈ (dropBadPrice 0 (coerceCol P 0 (df_sorted P tbl))).rows,
      ∃ r0 ∈ tbl.rows,
        r.getD 0 Cell.na = to_numeric P (to_datetime P (r0.getD 0 Cell.na))) := by
  have hex' : price_col_exact (df_sorted P tbl).header = some (time_col tbl) := hex
  refine ⟨?_, ?_, ?_⟩
  · unfold select_price
    rw [hex']
  · cases hh : tbl.header with
    | nil =>
      exfalso
      rw [hh] at hex
      have hnone : price_col_exact [] = none := by decide
      rw [hnone] at hex
      cases hex
    | cons a l =>
      have htc : time_col tbl = a := by
        rw [time_col_eq_getD, hh]
        rfl
      rw [htc]
      exact List.indexOf_cons_self a l
  · intro r hr
    obtain ⟨hcc, _⟩ := mem_dropBadPrice.mp hr
    obtain ⟨r2, h2, rfl⟩ := mem_coerceCol.mp hcc
    obtain ⟨⟨r0, h0, rfl⟩, _⟩ := mem_df_sorted.mp h2
    refine ⟨r0, h0, ?_⟩
    rw [coerceCol_row_getD_self P 0 (parseTimeRow P r0), parseTimeRow_getD_zero]

theorem price_time_overlap_witness :
    select_price Ptest (df_sorted Ptest tblC)
      = some (time_col tblC, df_sorted Ptest tblC) :=
  (price_time_overlap Ptest tblC (by decide)).1

/-- C9 counterexample: a table whose first column bears the priority name
"price" while another column is named "Close".  The time column is the first
column "price", but the selected price column is "Close" (priority order, not
column order, decides), so the first column is NOT selected as the price
column, refuting the claim's universal statement. -/
theorem price_time_overlap_counterexample :
    time_col ⟨["price", "Close"], []⟩ = "price" ∧
    "price" ∈ common_price_names ∧
    select_price Ptest (df_sorted Ptest ⟨["price", "Close"], []⟩)
      = some ("Close", df_sorted Ptest ⟨["price", "Close"], []⟩) ∧
    ("Close" : String) ≠ "price" := by
  refine ⟨rfl, by decide, by decide, by decide⟩

theorem is_numeric_col_coerceNonTime (P : Parsers) (t : RawTable) (i : Nat)
    (hne : t.header.getD i "" ≠ time_col t) :
    is_numeric_col (coerceNonTime P t) i := by
  unfold is_numeric_col
  rw [List.all_eq_true]
  intro r' hr'
  rcases mem_coerceNonTime.mp hr' with ⟨r, _, rfl⟩
  rw [coerceNonTime_row_getD_ne P t r i hne]
  exact to_numeric_isNumOrNa P _

theorem numeric_cols_coerceNonTime_eq_nil (P : Parsers) (t : RawTable) :
    numeric_cols (coerceNonTime P t) = [] ↔ ∀ n ∈ t.header, n = time_col t := by
  unfold numeric_cols
  rw [List.map_eq_nil_iff, List.filter_eq_nil_iff]
  constructor
  · intro h n hn
    rcases List.mem_iff_getElem.mp hn with ⟨i, hi, hget⟩
    by_contra hne
    apply h ⟨i, n⟩
    · rw [List.mem_enum_iff_getElem?]
      exact List.getElem?_eq_some.mpr ⟨hi, hget⟩
    · rw [Bool.and_eq_true]
      refine ⟨by simpa using hne, ?_⟩
      apply is_numeric_col_coerceNonTime
      rw [List.getD_eq_getElem?_getD, List.getElem?_eq_some.mpr ⟨hi, hget⟩]
      exact hne
  · intro hall a ha hpred
    rw [Bool.and_eq_true] at hpred
    obtain ⟨hne, _⟩ := hpred
    have hne' : (a.2 != time_col t) = true := hne
    rw [List.mem_enum_iff_getElem?] at ha
    have hmem : a.2 ∈ t.header := List.getElem?_mem ha
    have heq : a.2 = time_col t := hall a.2 hmem
    rw [heq] at hne'
    simp at hne'

/-- C5 (amended): the pipeline halts without a chart on exactly three
conditions — (a) the input file does not exist; (b) no numeric price column
is found after all fallbacks, which (the coercion fallback making every
column not named like the time column numeric) happens exactly when no
priority name occurs, no column is numeric, and every column bears the time
column's name; (c) the selected price column is the time column itself, in
which case the resample step raises an uncaught KeyError.  In every other
situation — unparsable timestamps and non-numeric price cells included —
the affected rows are dropped and the run produces output. -/
theorem pipeline_failure_conditions (P : Parsers) (tbl : RawTable)
    (res : Resolution) :
    (runPipeline false P tbl res = Except.error AppError.fileNotFound) ∧
    (runPipeline true P tbl res = Except.error AppError.noPriceColumnFound ↔
      select_price P (df_sorted P tbl) = none) ∧
    (select_price P (df_sorted P tbl) = none ↔
      (price_col_exact tbl.header = none ∧ numeric_cols (df_sorted P tbl) = [] ∧
        ∀ n ∈ tbl.header, n = time_col tbl)) ∧
    (runPipeline true P tbl res = Except.error AppError.keyError ↔
      ∃ pt, select_price P (df_sorted P tbl) = some pt ∧ pt.1 = time_col tbl) ∧
    (∀ pc t2, select_price P (df_sorted P tbl) = some (pc, t2) →
      pc ≠ time_col tbl → ∃ out, runPipeline true P tbl res = Except.ok out) := by
  refine ⟨rfl, ?_, ?_, ?_, ?_⟩
  · cases hsel : select_price P (df_sorted P tbl) with
    | none => simp [runPipeline, df_final, hsel]
    | some pct =>
      obtain ⟨pc, t2⟩ := pct
      have htc2 := time_col_t2 hsel
      have htc3 : time_col (dropBadPrice (t2.header.indexOf pc)
          (coerceCol P (t2.header.indexOf pc) t2)) = time_col tbl := htc2
      by_cases hbeq : pc = time_col tbl
      · subst hbeq
        simp [runPipeline, df_final, hsel, htc3]
      · simp [runPipeline, df_final, hsel, htc3, hbeq]
  · constructor
    · intro hnone
      unfold select_price at hnone
      cases hex : price_col_exact (df_sorted P tbl).header with
      | some n => rw [hex] at hnone; cases hnone
      | none =>
        rw [hex] at hnone
        cases hnc : numeric_cols (df_sorted P tbl) with
        | cons c rest => rw [hnc] at hnone; cases hnone
        | nil =>
          rw [hnc] at hnone
          cases hnc2 : numeric_cols (coerceNonTime P (df_sorted P tbl)) with
          | cons c rest => rw [hnc2] at hnone; cases hnone
          | nil =>
            refine ⟨hex, rfl, ?_⟩
            have hall := (numeric_cols_coerceNonTime_eq_nil P (df_sorted P tbl)).mp hnc2
            intro n hn
            exact hall n hn
    · rintro ⟨hex, hnc, hall⟩
      unfold select_price
      have hex' : price_col_exact (df_sorted P tbl).header = none := hex
      rw [hex', hnc]
      have hnc2 : numeric_cols (coerceNonTime P (df_sorted P tbl)) = [] :=
        (numeric_cols_coerceNonTime_eq_nil P (df_sorted P tbl)).mpr
          (fun n hn => hall n hn)
      rw [hnc2]
  · cases hsel : select_price P (df_sorted P tbl) with
    | none =>
      constructor
      · intro h
        simp [runPipeline, df_final, hsel] at h
      · rintro ⟨pt, hpt, _⟩
        cases hpt
    | some pct =>
      obtain ⟨pc, t2⟩ := pct
      have htc2 := time_col_t2 hsel
      have htc3 : time_col (dropBadPrice (t2.header.indexOf pc)
          (coerceCol P (t2.header.indexOf pc) t2)) = time_col tbl := htc2
      by_cases hbeq : pc = time_col tbl
      · subst hbeq
        constructor
        · intro _
          exact ⟨(time_col tbl, t2), rfl, rfl⟩
        · intro _
          simp [runPipeline, df_final, hsel, htc3]
      · constructor
        · intro h
          simp [runPipeline, df_final, hsel, htc3, hbeq] at h
        · rintro ⟨pt, hpt, hpt1⟩
          obtain rfl : (pc, t2) = pt := Option.some.inj hpt
          exact absurd hpt1 hbeq
  · intro pc t2 hsel hpc
    have htc2 := time_col_t2 hsel
    have htc3 : time_col (dropBadPrice (t2.header.indexOf pc)
        (coerceCol P (t2.header.indexOf pc) t2)) = time_col tbl := htc2
    have hok : runPipeline true P tbl res = Except.ok (resample res.width
        (extractSeries ((dropBadPrice (t2.header.indexOf pc)
            (coerceCol P (t2.header.indexOf pc) t2)).header.indexOf pc)
          (dropBadPrice (t2.header.indexOf pc)
            (coerceCol P (t2.header.indexOf pc) t2)))) := by
      simp [runPipeline, df_final, hsel, htc3, hpc]
    exact ⟨_, hok⟩

theorem pipeline_failure_conditions_witness :
    ∃ out, runPipeline true Ptest tblW Resolution.D = Except.ok out :=
  (pipeline_failure_conditions Ptest tblW Resolution.D).2.2.2.2 "Close"
    (df_sorted Ptest tblW) (by decide) (by decide)

/-- C5 counterexample: a one-column table whose only column is named
"Close".  The file exists and the price inference succeeds (the priority
name "Close" is found), yet the run halts with the KeyError failure — a
third failure condition, contradicting the claim that the pipeline fails on
exactly the two conditions and never otherwise. -/
theorem pipeline_failure_counterexample :
    runPipeline true Ptest ⟨["Close"], [[Cell.str "d10:00"]]⟩ Resolution.D
      = Except.error AppError.keyError ∧
    select_price Ptest (df_sorted Ptest ⟨["Close"], [[Cell.str "d10:00"]]⟩)
      = some ("Close", df_sorted Ptest ⟨["Close"], [[Cell.str "d10:00"]]⟩) ∧
    AppError.keyError ≠ AppError.fileNotFound ∧
    AppError.keyError ≠ AppError.noPriceColumnFound := by
  refine ⟨by rfl, by decide, by decide, by decide⟩

/-- C6: the loader parses the file comma-delimited first and re-parses it
semicolon-delimited if and only if the comma parse yields exactly one
column; in particular an input with header `Date;Close` has a single
comma-parse column and is re-read with semicolons, producing 2 columns. -/
theorem load_csv_fallback (lines : List (List Char)) :
    (numCols (readCsv ',' lines) = 1 → load_csv lines = readCsv ';' lines) ∧
    (numCols (readCsv ',' lines) ≠ 1 → load_csv lines = readCsv ',' lines) ∧
    numCols (readCsv ',' ["Date;Close".toList, "2020-01-01;100".toList]) = 1 ∧
    numCols (load_csv ["Date;Close".toList, "2020-01-01;100".toList]) = 2 := by
  refine ⟨?_, ?_, by decide, by decide⟩
  · intro h
    unfold load_csv
    rw [if_pos (by simpa using h)]
  · intro h
    unfold load_csv
    rw [if_neg (by simpa using h)]

theorem load_csv_fallback_witness :
    load_csv ["Date;Close".toList, "2020-01-01;100".toList]
      = readCsv ';' ["Date;Close".toList, "2020-01-01;100".toList] :=
  (load_csv_fallback ["Date;Close".toList, "2020-01-01;100".toList]).1 (by decide)
